import Mathlib

/-!
Shallow embedding of src/netsuite_all_functions.py.

The module is a NetSuite REST client: three paginated fetch loops
(fetch_all_netsuite_records, fetch_all_dataset_records, run_suiteql_query)
and single-record operations (fetch_record_by_id, create_netsuite_record,
update_netsuite_record, delete_netsuite_record).

Modelling choices:
- A paginated HTTP transport is a function from the call number (0-based)
  to the parsed response of that call: status code, the items array
  (data.get with key items, default empty list), and the hasMore field
  (absent = none).  Records themselves are opaque, hence a type parameter.
- Each while-True loop is a fuel-indexed recursive function: one unit of
  fuel per loop iteration (one HTTP request).  The result none means the
  fuel bound was exhausted, i.e. within that bound the Python loop has not
  returned; some (items, offs) means the loop returned items, having sent
  the requests with the offset parameters listed in offs, in order.
- Mutation endpoints perform exactly one HTTP call; they are functions of
  the single response (status, parsed JSON body, Location header).
  JSON object bodies are modelled as association lists of string pairs,
  which is enough for the id-extraction behaviour the spec describes.
-/

namespace Netsuite

/-- A parsed paginated response: HTTP status, the items array of the JSON
body (default empty when the key is missing, as in data.get), and the
hasMore field, none when the body has no such key. -/
structure Response (α : Type) where
  status : Nat
  items : List α
  hasMore : Option Bool
deriving Repr, DecidableEq

/-- Loop body of fetch_all_netsuite_records, lines 53-69 of the source:
while True: request at the current offset; on status other than 200 stop
with the accumulated items; otherwise append the items of the page, stop
unless hasMore is true, and advance the offset by the number of items just
received.  fuel bounds the number of iterations; call counts the requests
already made; offs records the offset parameter of every request sent. -/
def fetchRecordsGo (t : Nat → Response α) :
    Nat → Nat → Nat → List α → List Nat → Option (List α × List Nat)
  | 0, _, _, _, _ => none
  | fuel + 1, call, offset, acc, offs =>
    let response := t call
    if response.status ≠ 200 then
      some (acc, offs ++ [offset])
    else
      let acc2 := acc ++ response.items
      if response.hasMore = some true then
        fetchRecordsGo t fuel (call + 1) (offset + response.items.length) acc2 (offs ++ [offset])
      else
        some (acc2, offs ++ [offset])

/-- fetch_all_netsuite_records: all_items starts empty, offset starts at 0. -/
def fetch_all_netsuite_records (t : Nat → Response α) (fuel : Nat) :
    Option (List α × List Nat) :=
  fetchRecordsGo t fuel 0 0 [] []

/-- Loop body of fetch_all_dataset_records, lines 91-107 of the source:
as fetchRecordsGo, except that the offset advances by the fixed page-size
limit instead of the number of items received. -/
def fetchDatasetGo (t : Nat → Response α) (limit : Nat) :
    Nat → Nat → Nat → List α → List Nat → Option (List α × List Nat)
  | 0, _, _, _, _ => none
  | fuel + 1, call, offset, acc, offs =>
    let response := t call
    if response.status ≠ 200 then
      some (acc, offs ++ [offset])
    else
      let acc2 := acc ++ response.items
      if response.hasMore = some true then
        fetchDatasetGo t limit fuel (call + 1) (offset + limit) acc2 (offs ++ [offset])
      else
        some (acc2, offs ++ [offset])

/-- fetch_all_dataset_records: offset starts at 0, all_items empty; the
source default for limit is 1000, passed explicitly here. -/
def fetch_all_dataset_records (t : Nat → Response α) (limit : Nat) (fuel : Nat) :
    Option (List α × List Nat) :=
  fetchDatasetGo t limit fuel 0 0 [] []

/-- Loop body of run_suiteql_query, lines 156-176 of the source: the local
limit is the constant 1000.  On status 200 append the items of the page,
stop when the page has fewer than limit items, otherwise advance the offset
by limit; on any other status stop with the items accumulated before this
page.  The hasMore field of the response is never read. -/
def suiteqlGo (t : Nat → Response α) :
    Nat → Nat → Nat → List α → List Nat → Option (List α × List Nat)
  | 0, _, _, _, _ => none
  | fuel + 1, call, offset, acc, offs =>
    let response := t call
    if response.status = 200 then
      let acc2 := acc ++ response.items
      if response.items.length < 1000 then
        some (acc2, offs ++ [offset])
      else
        suiteqlGo t fuel (call + 1) (offset + 1000) acc2 (offs ++ [offset])
    else
      some (acc, offs ++ [offset])

/-- run_suiteql_query: all_items empty, offset 0, limit fixed at 1000. -/
def run_suiteql_query (t : Nat → Response α) (fuel : Nat) :
    Option (List α × List Nat) :=
  suiteqlGo t fuel 0 0 [] []

/-- A single (non-paginated) HTTP response: status, parsed JSON object body
as an association list, and the optional Location header. -/
structure HttpResponse where
  status : Nat
  body : List (String × String)
  location : Option String
deriving Repr, DecidableEq

/-- Python list.split for a one-character separator: splitting the empty
list of characters gives one empty group; every occurrence of the
separator starts a new group. -/
def splitChar (sep : Char) : List Char → List (List Char)
  | [] => [[]]
  | c :: cs =>
    match splitChar sep cs with
    | [] => [[c]]
    | g :: gs => if c = sep then [] :: g :: gs else (c :: g) :: gs

/-- Python str.rstrip for a one-character strip set: drop every trailing
occurrence of the character. -/
def rstripChar (sep : Char) (cs : List Char) : List Char :=
  (cs.reverse.dropWhile (fun c => c = sep)).reverse

/-- location.rstrip with slash, then split on slash, then the last element
(index -1; the split of any string is nonempty, so the default of getLastD
is never used). -/
def lastPathSegment (s : String) : String :=
  String.mk ((splitChar '/' (rstripChar '/' s.data)).getLastD [])

/-- create_netsuite_record, lines 194-213 of the source: on 200 or 201
return the parsed body; on 204 read the Location header, and when it is
truthy (present and non-empty, Python: if location) return the mapping
with key id bound to the last slash-delimited path segment, otherwise
return the empty mapping; on any other status return None. -/
def create_netsuite_record (resp : HttpResponse) : Option (List (String × String)) :=
  if resp.status = 200 ∨ resp.status = 201 then
    some resp.body
  else if resp.status = 204 then
    match resp.location with
    | some location =>
      if location = "" then some []
      else some [("id", lastPathSegment location)]
    | none => some []
  else
    none

/-- fetch_record_by_id, lines 127-132 of the source: parsed body on 200,
None otherwise. -/
def fetch_record_by_id (resp : HttpResponse) : Option (List (String × String)) :=
  if resp.status = 200 then some resp.body else none

/-- update_netsuite_record, lines 234-242 of the source: parsed body on
200 or 201, empty mapping on 204, None otherwise. -/
def update_netsuite_record (resp : HttpResponse) : Option (List (String × String)) :=
  if resp.status = 200 ∨ resp.status = 201 then some resp.body
  else if resp.status = 204 then some []
  else none

/-- delete_netsuite_record, lines 261-267 of the source: True exactly on
status 204. -/
def delete_netsuite_record (resp : HttpResponse) : Bool :=
  if resp.status = 204 then true else false

/-- The common shape of the three pagination loops: cont decides, for a
page that arrived with status 200, whether another request is issued, and
adv computes the next offset from the page and the current offset.  Each
loop above is an instance (proved below), so the structural lemmas are
established once, over pagedGo. -/
def pagedGo (cont : Response α → Prop) [DecidablePred cont] (adv : Response α → Nat → Nat)
    (t : Nat → Response α) :
    Nat → Nat → Nat → List α → List Nat → Option (List α × List Nat)
  | 0, _, _, _, _ => none
  | fuel + 1, call, offset, acc, offs =>
    if (t call).status ≠ 200 then
      some (acc, offs ++ [offset])
    else if cont (t call) then
      pagedGo cont adv t fuel (call + 1) (adv (t call) offset)
        (acc ++ (t call).items) (offs ++ [offset])
    else
      some (acc ++ (t call).items, offs ++ [offset])

/-- Concatenation of the items of the k consecutive pages call, call+1,
..., call+k-1 served by the transport. -/
def itemsSeg (t : Nat → Response α) (call : Nat) : Nat → List α
  | 0 => []
  | k + 1 => (t call).items ++ itemsSeg t (call + 1) k

/-- Total number of items on the k consecutive pages call, ..., call+k-1. -/
def lenSum (t : Nat → Response α) (call : Nat) : Nat → Nat
  | 0 => 0
  | k + 1 => (t call).items.length + lenSum t (call + 1) k

/-- What the loop appends over n consecutive calls starting at call: the
items of each page that arrived with status 200, nothing for a page that
arrived with any other status, in call order. -/
def takenItems (t : Nat → Response α) (call : Nat) : Nat → List α
  | 0 => []
  | n + 1 =>
    (if (t call).status = 200 then (t call).items else []) ++ takenItems t (call + 1) n

/-- The offset after k advancement steps starting from a given call and
offset. -/
def offsetAfter (adv : Response α → Nat → Nat) (t : Nat → Response α) :
    Nat → Nat → Nat → Nat
  | _, offset, 0 => offset
  | call, offset, k + 1 => offsetAfter adv t (call + 1) (adv (t call) offset) k

/-- The transport with the hasMore field replaced by the Python value of
data.get with key hasMore and default False: an absent flag becomes the
explicit flag false. -/
def withDefaultHasMore (t : Nat → Response α) : Nat → Response α :=
  fun k => ⟨(t k).status, (t k).items, some ((t k).hasMore.getD false)⟩

/-- Transport for witnesses: one successful page with hasMore true, then a
failing call. -/
def tFail : Nat → Response Nat :=
  fun k => if k = 0 then ⟨200, [5, 6], some true⟩ else ⟨403, [], none⟩

/-- Transport for witnesses: every call fails. -/
def tAllFail : Nat → Response Nat :=
  fun _ => ⟨500, [], none⟩

/-- Transport for witnesses: a page of two items with hasMore true, then a
page of one item with hasMore false. -/
def tTwoPages : Nat → Response Nat :=
  fun k => if k = 0 then ⟨200, [1, 2], some true⟩ else ⟨200, [3], some false⟩

/-- Transport for witnesses: a single short page, with no hasMore field. -/
def tShort : Nat → Response Nat :=
  fun _ => ⟨200, [1], none⟩

/-- Transport for witnesses: as tShort but with an explicit hasMore flag,
to exercise the fact that run_suiteql_query ignores it. -/
def tShortFlagged : Nat → Response Nat :=
  fun _ => ⟨200, [1], some true⟩

/-- Transport for witnesses: two overlapping pages, the record with key 2
appearing on both. -/
def tOverlap : Nat → Response Nat :=
  fun k => if k = 0 then ⟨200, [1, 2], some true⟩ else ⟨200, [2, 3], some false⟩

/-- Transport for witnesses: every page succeeds with hasMore true and no
items. -/
def tSpin : Nat → Response Nat :=
  fun _ => ⟨200, [], some true⟩

/-- Transport for witnesses: a successful page with hasMore true, then a
successful page with no hasMore field. -/
def tNoFlag : Nat → Response Nat :=
  fun k => if k = 0 then ⟨200, [4], some true⟩ else ⟨200, [5, 6], none⟩

theorem fetchRecordsGo_eq_pagedGo (t : Nat → Response α) :
    ∀ (fuel call offset : Nat) (acc : List α) (offs : List Nat),
    fetchRecordsGo t fuel call offset acc offs
      = pagedGo (fun r => r.hasMore = some true) (fun r o => o + r.items.length)
          t fuel call offset acc offs := by
  intro fuel
  induction fuel with
  | zero => intro _ _ _ _; rfl
  | succ fuel ih =>
    intro call offset acc offs
    by_cases h1 : (t call).status ≠ 200
    · simp [fetchRecordsGo, pagedGo, h1]
    · by_cases h2 : (t call).hasMore = some true
      · simp [fetchRecordsGo, pagedGo, h1, h2, ih]
      · simp [fetchRecordsGo, pagedGo, h1, h2]

theorem fetchDatasetGo_eq_pagedGo (t : Nat → Response α) (limit : Nat) :
    ∀ (fuel call offset : Nat) (acc : List α) (offs : List Nat),
    fetchDatasetGo t limit fuel call offset acc offs
      = pagedGo (fun r => r.hasMore = some true) (fun _ o => o + limit)
          t fuel call offset acc offs := by
  intro fuel
  induction fuel with
  | zero => intro _ _ _ _; rfl
  | succ fuel ih =>
    intro call offset acc offs
    by_cases h1 : (t call).status ≠ 200
    · simp [fetchDatasetGo, pagedGo, h1]
    · by_cases h2 : (t call).hasMore = some true
      · simp [fetchDatasetGo, pagedGo, h1, h2, ih]
      · simp [fetchDatasetGo, pagedGo, h1, h2]

theorem suiteqlGo_eq_pagedGo (t : Nat → Response α) :
    ∀ (fuel call offset : Nat) (acc : List α) (offs : List Nat),
    suiteqlGo t fuel call offset acc offs
      = pagedGo (fun r => ¬ r.items.length < 1000) (fun _ o => o + 1000)
          t fuel call offset acc offs := by
  intro fuel
  induction fuel with
  | zero => intro _ _ _ _; rfl
  | succ fuel ih =>
    intro call offset acc offs
    by_cases h1 : (t call).status = 200
    · by_cases h2 : (t call).items.length < 1000
      · simp [suiteqlGo, pagedGo, h1, h2]
      · simp [suiteqlGo, pagedGo, h1, h2, ih]
    · simp [suiteqlGo, pagedGo, h1]

theorem pagedGo_shift (cont : Response α → Prop) [DecidablePred cont]
    (adv : Response α → Nat → Nat) (t : Nat → Response α) :
    ∀ (fuel call offset : Nat) (acc : List α) (offs : List Nat),
    pagedGo cont adv t fuel call offset acc offs
      = (pagedGo cont adv t fuel call offset [] []).map
          (fun p => (acc ++ p.1, offs ++ p.2)) := by
  intro fuel
  induction fuel with
  | zero => intro _ _ _ _; rfl
  | succ fuel ih =>
    intro call offset acc offs
    by_cases h1 : (t call).status ≠ 200
    · simp [pagedGo, h1]
    · by_cases h2 : cont (t call)
      · simp only [pagedGo, if_neg h1, if_pos h2, List.nil_append]
        rw [ih, ih (call + 1) (adv (t call) offset) ((t call).items) [offset]]
        cases pagedGo cont adv t fuel (call + 1) (adv (t call) offset) [] [] with
        | none => rfl
        | some p => simp
      · simp [pagedGo, h1, h2]

theorem pagedGo_length_pos (cont : Response α → Prop) [DecidablePred cont]
    (adv : Response α → Nat → Nat) (t : Nat → Response α)
    (fuel call offset : Nat) (res : List α) (offs : List Nat)
    (h : pagedGo cont adv t fuel call offset [] [] = some (res, offs)) :
    0 < offs.length := by
  cases fuel with
  | zero => exact absurd h (by simp [pagedGo])
  | succ fuel =>
    by_cases h1 : (t call).status ≠ 200
    · simp [pagedGo, h1] at h
      obtain ⟨-, h4⟩ := h
      subst h4
      simp
    · by_cases h2 : cont (t call)
      · simp only [pagedGo, if_neg h1, if_pos h2, List.nil_append] at h
        rw [pagedGo_shift] at h
        cases hin : pagedGo cont adv t fuel (call + 1) (adv (t call) offset) [] [] with
        | none => rw [hin] at h; exact absurd h (by simp)
        | some p =>
          rw [hin] at h
          simp only [Option.map_some', Option.some.injEq, Prod.mk.injEq] at h
          obtain ⟨-, h4⟩ := h
          subst h4
          simp
      · simp [pagedGo, h1, h2] at h
        obtain ⟨-, h4⟩ := h
        subst h4
        simp

theorem pagedGo_offsets (cont : Response α → Prop) [DecidablePred cont]
    (adv : Response α → Nat → Nat) (t : Nat → Response α) :
    ∀ (fuel call offset : Nat) (res : List α) (offs : List Nat),
    pagedGo cont adv t fuel call offset [] [] = some (res, offs) →
    ∀ k (hk : k < offs.length), offs.get ⟨k, hk⟩ = offsetAfter adv t call offset k := by
  intro fuel
  induction fuel with
  | zero => intro call offset res offs h; exact absurd h (by simp [pagedGo])
  | succ fuel ih =>
    intro call offset res offs h k hk
    by_cases h1 : (t call).status ≠ 200
    · simp [pagedGo, h1] at h
      obtain ⟨-, h2⟩ := h
      subst h2
      have hk0 : k = 0 := by simpa using Nat.lt_one_iff.mp (by simpa using hk)
      subst hk0
      rfl
    · by_cases h2 : cont (t call)
      · simp only [pagedGo, if_neg h1, if_pos h2, List.nil_append] at h
        rw [pagedGo_shift] at h
        cases hin : pagedGo cont adv t fuel (call + 1) (adv (t call) offset) [] [] with
        | none => rw [hin] at h; exact absurd h (by simp)
        | some p =>
          obtain ⟨res2, offs2⟩ := p
          rw [hin] at h
          simp only [Option.map_some', Option.some.injEq, Prod.mk.injEq] at h
          obtain ⟨-, h4⟩ := h
          subst h4
          cases k with
          | zero => rfl
          | succ j =>
            have hj : j < offs2.length := by simpa using hk
            have := ih (call + 1) (adv (t call) offset) res2 offs2 hin j hj
            simpa [offsetAfter] using this
      · simp [pagedGo, h1, h2] at h
        obtain ⟨-, h4⟩ := h
        subst h4
        have hk0 : k = 0 := by simpa using Nat.lt_one_iff.mp (by simpa using hk)
        subst hk0
        rfl

theorem pagedGo_items (cont : Response α → Prop) [DecidablePred cont]
    (adv : Response α → Nat → Nat) (t : Nat → Response α) :
    ∀ (fuel call offset : Nat) (res : List α) (offs : List Nat),
    pagedGo cont adv t fuel call offset [] [] = some (res, offs) →
    res = takenItems t call offs.length := by
  intro fuel
  induction fuel with
  | zero => intro call offset res offs h; exact absurd h (by simp [pagedGo])
  | succ fuel ih =>
    intro call offset res offs h
    by_cases h1 : (t call).status ≠ 200
    · simp [pagedGo, h1] at h
      obtain ⟨h3, h4⟩ := h
      subst h3; subst h4
      simp [takenItems, h1]
    · by_cases h2 : cont (t call)
      · simp only [pagedGo, if_neg h1, if_pos h2, List.nil_append] at h
        rw [pagedGo_shift] at h
        cases hin : pagedGo cont adv t fuel (call + 1) (adv (t call) offset) [] [] with
        | none => rw [hin] at h; exact absurd h (by simp)
        | some p =>
          obtain ⟨res2, offs2⟩ := p
          rw [hin] at h
          simp only [Option.map_some', Option.some.injEq, Prod.mk.injEq] at h
          obtain ⟨h3, h4⟩ := h
          subst h3; subst h4
          have hres2 := ih (call + 1) (adv (t call) offset) res2 offs2 hin
          simp [takenItems, not_not.mp h1, hres2]
      · simp [pagedGo, h1, h2] at h
        obtain ⟨h3, h4⟩ := h
        subst h3; subst h4
        simp [takenItems, not_not.mp h1]

theorem pagedGo_fail (cont : Response α → Prop) [DecidablePred cont]
    (adv : Response α → Nat → Nat) (t : Nat → Response α) :
    ∀ (k fuel call offset : Nat),
    (∀ i, i < k → (t (call + i)).status = 200 ∧ cont (t (call + i))) →
    (t (call + k)).status ≠ 200 → k < fuel →
    ∃ offs, pagedGo cont adv t fuel call offset [] [] = some (itemsSeg t call k, offs)
      ∧ offs.length = k + 1 := by
  intro k
  induction k with
  | zero =>
    intro fuel call offset _ hfail hlt
    cases fuel with
    | zero => omega
    | succ fuel =>
      have hf : (t call).status ≠ 200 := by simpa using hfail
      refine ⟨[offset], ?_, rfl⟩
      simp [pagedGo, hf, itemsSeg]
  | succ k ih =>
    intro fuel call offset hok hfail hlt
    cases fuel with
    | zero => omega
    | succ fuel =>
      have h0 := hok 0 (by omega)
      rw [Nat.add_zero] at h0
      have hok2 : ∀ i, i < k → (t (call + 1 + i)).status = 200 ∧ cont (t (call + 1 + i)) := by
        intro i hi
        have hstep := hok (i + 1) (by omega)
        have he : call + (i + 1) = call + 1 + i := by omega
        rwa [he] at hstep
      have hfail2 : (t (call + 1 + k)).status ≠ 200 := by
        have he : call + (k + 1) = call + 1 + k := by omega
        rwa [he] at hfail
      obtain ⟨offs2, hrun, hlen⟩ :=
        ih fuel (call + 1) (adv (t call) offset) hok2 hfail2 (by omega)
      refine ⟨[offset] ++ offs2, ?_, by simp [hlen]⟩
      have hs2 : ¬ (t call).status ≠ 200 := by simp [h0.1]
      simp only [pagedGo, if_neg hs2, if_pos h0.2, List.nil_append]
      rw [pagedGo_shift, hrun]
      simp [itemsSeg]

theorem pagedGo_runStop (cont : Response α → Prop) [DecidablePred cont]
    (adv : Response α → Nat → Nat) (t : Nat → Response α) :
    ∀ (k fuel call offset : Nat),
    (∀ i, i < k → (t (call + i)).status = 200 ∧ cont (t (call + i))) →
    (t (call + k)).status = 200 → ¬ cont (t (call + k)) → k < fuel →
    ∃ offs, pagedGo cont adv t fuel call offset [] [] = some (itemsSeg t call (k + 1), offs)
      ∧ offs.length = k + 1 := by
  intro k
  induction k with
  | zero =>
    intro fuel call offset _ hstat hstop hlt
    cases fuel with
    | zero => omega
    | succ fuel =>
      rw [Nat.add_zero] at hstat hstop
      refine ⟨[offset], ?_, rfl⟩
      simp [pagedGo, hstat, hstop, itemsSeg]
  | succ k ih =>
    intro fuel call offset hok hstat hstop hlt
    cases fuel with
    | zero => omega
    | succ fuel =>
      have h0 := hok 0 (by omega)
      rw [Nat.add_zero] at h0
      have hok2 : ∀ i, i < k → (t (call + 1 + i)).status = 200 ∧ cont (t (call + 1 + i)) := by
        intro i hi
        have hstep := hok (i + 1) (by omega)
        have he : call + (i + 1) = call + 1 + i := by omega
        rwa [he] at hstep
      have he : call + (k + 1) = call + 1 + k := by omega
      rw [he] at hstat hstop
      obtain ⟨offs2, hrun, hlen⟩ :=
        ih fuel (call + 1) (adv (t call) offset) hok2 hstat hstop (by omega)
      refine ⟨[offset] ++ offs2, ?_, by simp [hlen]⟩
      have hs2 : ¬ (t call).status ≠ 200 := by simp [h0.1]
      simp only [pagedGo, if_neg hs2, if_pos h0.2, List.nil_append]
      rw [pagedGo_shift, hrun]
      simp [itemsSeg]

theorem pagedGo_none (cont : Response α → Prop) [DecidablePred cont]
    (adv : Response α → Nat → Nat) (t : Nat → Response α)
    (h : ∀ k, (t k).status = 200 ∧ cont (t k)) :
    ∀ (fuel call offset : Nat) (acc : List α) (offs : List Nat),
    pagedGo cont adv t fuel call offset acc offs = none := by
  intro fuel
  induction fuel with
  | zero => intro _ _ _ _; rfl
  | succ fuel ih =>
    intro call offset acc offs
    simp [pagedGo, (h call).1, (h call).2, ih]

theorem pagedGo_calls (cont : Response α → Prop) [DecidablePred cont]
    (adv : Response α → Nat → Nat) (t : Nat → Response α) :
    ∀ (fuel call offset : Nat) (res : List α) (offs : List Nat),
    pagedGo cont adv t fuel call offset [] [] = some (res, offs) →
    ∀ k, k + 1 < offs.length
      ↔ (k < offs.length ∧ (t (call + k)).status = 200 ∧ cont (t (call + k))) := by
  intro fuel
  induction fuel with
  | zero => intro call offset res offs h; exact absurd h (by simp [pagedGo])
  | succ fuel ih =>
    intro call offset res offs h k
    by_cases h1 : (t call).status ≠ 200
    · simp [pagedGo, h1] at h
      obtain ⟨-, h4⟩ := h
      subst h4
      constructor
      · intro hlt; simp at hlt
      · rintro ⟨hk, hs, -⟩
        have hk0 : k = 0 := by simpa [Nat.lt_one_iff] using hk
        subst hk0
        rw [Nat.add_zero] at hs
        exact absurd hs h1
    · by_cases h2 : cont (t call)
      · simp only [pagedGo, if_neg h1, if_pos h2, List.nil_append] at h
        rw [pagedGo_shift] at h
        cases hin : pagedGo cont adv t fuel (call + 1) (adv (t call) offset) [] [] with
        | none => rw [hin] at h; exact absurd h (by simp)
        | some p =>
          obtain ⟨res2, offs2⟩ := p
          rw [hin] at h
          simp only [Option.map_some', Option.some.injEq, Prod.mk.injEq] at h
          obtain ⟨-, h4⟩ := h
          subst h4
          have hpos := pagedGo_length_pos cont adv t fuel (call + 1)
            (adv (t call) offset) res2 offs2 hin
          cases k with
          | zero =>
            constructor
            · intro _
              refine ⟨by simp, ?_, ?_⟩
              · simpa using not_not.mp h1
              · simpa using h2
            · intro _
              simp only [List.singleton_append, List.length_cons]
              omega
          | succ j =>
            have he : call + (j + 1) = call + 1 + j := by omega
            have hj := ih (call + 1) (adv (t call) offset) res2 offs2 hin j
            rw [he]
            simp only [List.singleton_append, List.length_cons, Nat.succ_lt_succ_iff]
            exact hj
      · simp [pagedGo, h1, h2] at h
        obtain ⟨-, h4⟩ := h
        subst h4
        constructor
        · intro hlt; simp at hlt
        · rintro ⟨hk, -, hc⟩
          have hk0 : k = 0 := by simpa [Nat.lt_one_iff] using hk
          subst hk0
          rw [Nat.add_zero] at hc
          exact absurd hc h2

theorem pagedGo_congr (cont : Response α → Prop) [DecidablePred cont]
    (adv : Response α → Nat → Nat) (t : Nat → Response α)
    (cont2 : Response α → Prop) [DecidablePred cont2]
    (adv2 : Response α → Nat → Nat) (t2 : Nat → Response α)
    (h : ∀ k, (t k).status = (t2 k).status ∧ (t k).items = (t2 k).items
      ∧ (cont (t k) ↔ cont2 (t2 k)) ∧ ∀ o, adv (t k) o = adv2 (t2 k) o) :
    ∀ (fuel call offset : Nat) (acc : List α) (offs : List Nat),
    pagedGo cont adv t fuel call offset acc offs
      = pagedGo cont2 adv2 t2 fuel call offset acc offs := by
  intro fuel
  induction fuel with
  | zero => intro _ _ _ _; rfl
  | succ fuel ih =>
    intro call offset acc offs
    obtain ⟨hs, hi, hc, ha⟩ := h call
    by_cases h1 : (t call).status ≠ 200
    · have h1' : (t2 call).status ≠ 200 := by rwa [hs] at h1
      simp [pagedGo, h1, h1']
    · have h1' : ¬ (t2 call).status ≠ 200 := by rwa [hs] at h1
      by_cases h2 : cont (t call)
      · have h2' : cont2 (t2 call) := hc.mp h2
        simp only [pagedGo, if_neg h1, if_neg h1', if_pos h2, if_pos h2']
        rw [ih, hi, ha offset]
      · have h2' : ¬ cont2 (t2 call) := fun hx => h2 (hc.mpr hx)
        simp [pagedGo, h1, h1', h2, h2', hi]

theorem offsetAfter_items (t : Nat → Response α) :
    ∀ (k call offset : Nat),
    offsetAfter (fun r o => o + r.items.length) t call offset k
      = offset + lenSum t call k := by
  intro k
  induction k with
  | zero => intro call offset; simp [offsetAfter, lenSum]
  | succ k ih =>
    intro call offset
    simp only [offsetAfter, lenSum]
    rw [ih]
    omega

theorem offsetAfter_const (t : Nat → Response α) (c : Nat) :
    ∀ (k call offset : Nat),
    offsetAfter (fun _ o => o + c) t call offset k = offset + k * c := by
  intro k
  induction k with
  | zero => intro call offset; simp [offsetAfter]
  | succ k ih =>
    intro call offset
    simp only [offsetAfter]
    rw [ih, Nat.succ_mul]
    omega

/-- Claim C1: for every paginated fetch variant, if the calls before call
k all continue the loop and call k returns a non-success status, the run
returns normally (the result is some, no exception) carrying exactly the
items accumulated from the k earlier successful pages, and stops
immediately: exactly k + 1 requests were sent.  With k = 0 this gives the
special case that a failing first call yields the empty sequence. -/
theorem claim1_failure_partial_result :
    (∀ (t : Nat → Response Nat) (fuel k : Nat),
      (∀ i, i < k → (t i).status = 200 ∧ (t i).hasMore = some true) →
      (t k).status ≠ 200 → k < fuel →
      ∃ offs, fetch_all_netsuite_records t fuel = some (itemsSeg t 0 k, offs)
        ∧ offs.length = k + 1)
  ∧ (∀ (t : Nat → Response Nat) (limit fuel k : Nat),
      (∀ i, i < k → (t i).status = 200 ∧ (t i).hasMore = some true) →
      (t k).status ≠ 200 → k < fuel →
      ∃ offs, fetch_all_dataset_records t limit fuel = some (itemsSeg t 0 k, offs)
        ∧ offs.length = k + 1)
  ∧ (∀ (t : Nat → Response Nat) (fuel k : Nat),
      (∀ i, i < k → (t i).status = 200 ∧ 1000 ≤ (t i).items.length) →
      (t k).status ≠ 200 → k < fuel →
      ∃ offs, run_suiteql_query t fuel = some (itemsSeg t 0 k, offs)
        ∧ offs.length = k + 1) := by
  refine ⟨?_, ?_, ?_⟩
  · intro t fuel k hok hfail hlt
    simp only [fetch_all_netsuite_records]
    rw [fetchRecordsGo_eq_pagedGo]
    exact pagedGo_fail _ _ t k fuel 0 0 (by simpa using hok) (by simpa using hfail) hlt
  · intro t limit fuel k hok hfail hlt
    simp only [fetch_all_dataset_records]
    rw [fetchDatasetGo_eq_pagedGo]
    exact pagedGo_fail _ _ t k fuel 0 0 (by simpa using hok) (by simpa using hfail) hlt
  · intro t fuel k hok hfail hlt
    simp only [run_suiteql_query]
    rw [suiteqlGo_eq_pagedGo]
    refine pagedGo_fail _ _ t k fuel 0 0 ?_ (by simpa using hfail) hlt
    intro i hi
    have hh := hok i hi
    simp only [Nat.zero_add]
    exact ⟨hh.1, Nat.not_lt.mpr hh.2⟩

theorem claim1_witness :
    (∃ offs, fetch_all_netsuite_records tFail 9 = some (itemsSeg tFail 0 1, offs)
      ∧ offs.length = 2)
  ∧ (∃ offs, fetch_all_dataset_records tFail 7 9 = some (itemsSeg tFail 0 1, offs)
      ∧ offs.length = 2)
  ∧ (∃ offs, run_suiteql_query tAllFail 9 = some (itemsSeg tAllFail 0 0, offs)
      ∧ offs.length = 1) :=
  ⟨claim1_failure_partial_result.1 tFail 9 1 (by decide) (by decide) (by decide),
   claim1_failure_partial_result.2.1 tFail 7 9 1 (by decide) (by decide) (by decide),
   claim1_failure_partial_result.2.2 tAllFail 9 0 (by decide) (by decide) (by decide)⟩

/-- Claim C2: for the record-list fetcher, the offset sent with request
number k (0-based; the request for page k+1) equals the total number of
items received on the k earlier pages. -/
theorem claim2_record_list_cursor (t : Nat → Response Nat) (fuel : Nat)
    (res : List Nat) (offs : List Nat)
    (h : fetch_all_netsuite_records t fuel = some (res, offs)) :
    ∀ k (hk : k < offs.length), offs.get ⟨k, hk⟩ = lenSum t 0 k := by
  simp only [fetch_all_netsuite_records] at h
  rw [fetchRecordsGo_eq_pagedGo] at h
  intro k hk
  have hofs := pagedGo_offsets _ _ t fuel 0 0 res offs h k hk
  rw [hofs, offsetAfter_items]
  exact Nat.zero_add _

theorem claim2_witness :
    ([0, 2] : List Nat).get ⟨1, by decide⟩ = lenSum tTwoPages 0 1 :=
  claim2_record_list_cursor tTwoPages 9 [1, 2, 3] [0, 2] (by decide) 1 (by decide)

/-- Claim C3: for the dataset fetcher and for the free-form-query fetcher,
the offset sent with request number k equals k times the page-size limit
(limit for the dataset variant, the constant 1000 for the query variant),
whatever the item counts of the pages actually were. -/
theorem claim3_fixed_limit_cursor :
    (∀ (t : Nat → Response Nat) (limit fuel : Nat) (res : List Nat) (offs : List Nat),
      fetch_all_dataset_records t limit fuel = some (res, offs) →
      ∀ k (hk : k < offs.length), offs.get ⟨k, hk⟩ = k * limit)
  ∧ (∀ (t : Nat → Response Nat) (fuel : Nat) (res : List Nat) (offs : List Nat),
      run_suiteql_query t fuel = some (res, offs) →
      ∀ k (hk : k < offs.length), offs.get ⟨k, hk⟩ = k * 1000) := by
  constructor
  · intro t limit fuel res offs h k hk
    simp only [fetch_all_dataset_records] at h
    rw [fetchDatasetGo_eq_pagedGo] at h
    have hofs := pagedGo_offsets _ _ t fuel 0 0 res offs h k hk
    rw [hofs, offsetAfter_const]
    exact Nat.zero_add _
  · intro t fuel res offs h k hk
    simp only [run_suiteql_query] at h
    rw [suiteqlGo_eq_pagedGo] at h
    have hofs := pagedGo_offsets _ _ t fuel 0 0 res offs h k hk
    rw [hofs, offsetAfter_const]
    exact Nat.zero_add _

theorem claim3_witness :
    ([0, 7] : List Nat).get ⟨1, by decide⟩ = 1 * 7
  ∧ ([0] : List Nat).get ⟨0, by decide⟩ = 0 * 1000 :=
  ⟨claim3_fixed_limit_cursor.1 tTwoPages 7 9 [1, 2, 3] [0, 7] (by decide) 1 (by decide),
   claim3_fixed_limit_cursor.2 tShort 9 [1] [0] (by decide) 0 (by decide)⟩

/-- Claim C4: run_suiteql_query issues request k + 1 exactly when request
k was issued, came back with status 200, and carried at least 1000 (the
requested limit) items; and its result does not depend on the hasMore
field of any response at all. -/
theorem claim4_suiteql_continuation :
    (∀ (t : Nat → Response Nat) (fuel : Nat) (res : List Nat) (offs : List Nat),
      run_suiteql_query t fuel = some (res, offs) →
      ∀ k, k + 1 < offs.length
        ↔ (k < offs.length ∧ (t k).status = 200 ∧ 1000 ≤ (t k).items.length))
  ∧ (∀ (t t2 : Nat → Response Nat) (fuel : Nat),
      (∀ k, (t k).status = (t2 k).status ∧ (t k).items = (t2 k).items) →
      run_suiteql_query t fuel = run_suiteql_query t2 fuel) := by
  constructor
  · intro t fuel res offs h k
    simp only [run_suiteql_query] at h
    rw [suiteqlGo_eq_pagedGo] at h
    have hca := pagedGo_calls _ _ t fuel 0 0 res offs h k
    simpa [Nat.not_lt] using hca
  · intro t t2 fuel hagree
    simp only [run_suiteql_query]
    rw [suiteqlGo_eq_pagedGo, suiteqlGo_eq_pagedGo]
    exact pagedGo_congr _ _ t _ _ t2
      (fun k => ⟨(hagree k).1, (hagree k).2, by rw [(hagree k).2], fun o => rfl⟩)
      fuel 0 0 [] []

theorem claim4_witness :
    (0 + 1 < ([0] : List Nat).length
      ↔ (0 < ([0] : List Nat).length ∧ (tShort 0).status = 200
          ∧ 1000 ≤ (tShort 0).items.length))
  ∧ run_suiteql_query tShort 5 = run_suiteql_query tShortFlagged 5 :=
  ⟨claim4_suiteql_continuation.1 tShort 5 [1] [0] (by decide) 0,
   claim4_suiteql_continuation.2 tShort tShortFlagged 5 (fun _ => ⟨rfl, rfl⟩)⟩

/-- Claim C5: for every paginated fetch variant, the returned aggregate is
exactly the concatenation, in call order, of the item sequences of the
pages fetched (a page that arrived with a non-success status, necessarily
the last call, contributes nothing).  Nothing is reordered or
deduplicated, so overlapping pages put their duplicates in the result
verbatim; the witness exercises that case. -/
theorem claim5_aggregate_concatenation :
    (∀ (t : Nat → Response Nat) (fuel : Nat) (res : List Nat) (offs : List Nat),
      fetch_all_netsuite_records t fuel = some (res, offs) →
      res = takenItems t 0 offs.length)
  ∧ (∀ (t : Nat → Response Nat) (limit fuel : Nat) (res : List Nat) (offs : List Nat),
      fetch_all_dataset_records t limit fuel = some (res, offs) →
      res = takenItems t 0 offs.length)
  ∧ (∀ (t : Nat → Response Nat) (fuel : Nat) (res : List Nat) (offs : List Nat),
      run_suiteql_query t fuel = some (res, offs) →
      res = takenItems t 0 offs.length) := by
  refine ⟨?_, ?_, ?_⟩
  · intro t fuel res offs h
    simp only [fetch_all_netsuite_records] at h
    rw [fetchRecordsGo_eq_pagedGo] at h
    exact pagedGo_items _ _ t fuel 0 0 res offs h
  · intro t limit fuel res offs h
    simp only [fetch_all_dataset_records] at h
    rw [fetchDatasetGo_eq_pagedGo] at h
    exact pagedGo_items _ _ t fuel 0 0 res offs h
  · intro t fuel res offs h
    simp only [run_suiteql_query] at h
    rw [suiteqlGo_eq_pagedGo] at h
    exact pagedGo_items _ _ t fuel 0 0 res offs h

theorem claim5_witness :
    ([1, 2, 2, 3] : List Nat) = takenItems tOverlap 0 2 :=
  claim5_aggregate_concatenation.1 tOverlap 9 [1, 2, 2, 3] [0, 2] (by decide)

/-- Claim C6, counterexample: a 204 response whose Location header is
present but carries the empty string.  Python tests the header with if
location, so the empty value falls through to the no-header branch: the
code returns the empty mapping, while the claim (last slash-delimited
segment of the value of a present header) demands the mapping binding id
to lastPathSegment of the empty string. -/
theorem claim6_counterexample :
    create_netsuite_record ⟨204, [], some ""⟩ = some []
  ∧ create_netsuite_record ⟨204, [], some ""⟩ ≠ some [("id", lastPathSegment "")] := by
  constructor
  · decide
  · decide

/-- Claim C6, amended: on a 204 response, if the Location header is
present with a non-empty value the returned identifier is the last
slash-delimited path segment of that value; if the header is absent, or
present with the empty value, the result is the empty mapping, not
null.  The final conjunct checks the example of the spec. -/
theorem claim6_create_location_amended :
    (∀ (resp : HttpResponse) (loc : String),
      resp.status = 204 → resp.location = some loc → loc ≠ "" →
      create_netsuite_record resp = some [("id", lastPathSegment loc)])
  ∧ (∀ resp : HttpResponse,
      resp.status = 204 → (resp.location = none ∨ resp.location = some "") →
      create_netsuite_record resp = some [] ∧ create_netsuite_record resp ≠ none)
  ∧ lastPathSegment "https://x.suitetalk.api.netsuite.com/services/rest/record/v1/customer/4821"
      = "4821" := by
  refine ⟨?_, ?_, by decide⟩
  · intro resp loc h204 hloc hne
    simp [create_netsuite_record, h204, hloc, hne]
  · intro resp h204 hcase
    rcases hcase with hnone | hempty
    · simp [create_netsuite_record, h204, hnone]
    · simp [create_netsuite_record, h204, hempty]

theorem claim6_witness :
    create_netsuite_record ⟨204, [], some "a/b/77"⟩ = some [("id", lastPathSegment "a/b/77")]
  ∧ create_netsuite_record ⟨204, [], none⟩ = some []
  ∧ create_netsuite_record ⟨204, [], none⟩ ≠ none :=
  ⟨claim6_create_location_amended.1 ⟨204, [], some "a/b/77"⟩ "a/b/77" rfl rfl (by decide),
   claim6_create_location_amended.2.1 ⟨204, [], none⟩ rfl (Or.inl rfl)⟩

/-- Claim C7: update_netsuite_record returns the parsed body on 200 or
201, the empty mapping on 204, and null (none) on every other status; the
function is total, so no exception escapes. -/
theorem claim7_update_status_contract :
    ∀ resp : HttpResponse,
      ((resp.status = 200 ∨ resp.status = 201) → update_netsuite_record resp = some resp.body)
    ∧ (resp.status = 204 → update_netsuite_record resp = some [])
    ∧ (resp.status ≠ 200 → resp.status ≠ 201 → resp.status ≠ 204 →
        update_netsuite_record resp = none) := by
  intro resp
  refine ⟨?_, ?_, ?_⟩
  · intro h
    simp [update_netsuite_record, h]
  · intro h
    simp [update_netsuite_record, h]
  · intro h1 h2 h3
    simp [update_netsuite_record, h1, h2, h3]

theorem claim7_witness :
    update_netsuite_record ⟨200, [("companyname", "Acme")], none⟩
      = some [("companyname", "Acme")]
  ∧ update_netsuite_record ⟨204, [], none⟩ = some []
  ∧ update_netsuite_record ⟨404, [], none⟩ = none :=
  ⟨(claim7_update_status_contract ⟨200, [("companyname", "Acme")], none⟩).1 (Or.inl rfl),
   (claim7_update_status_contract ⟨204, [], none⟩).2.1 rfl,
   (claim7_update_status_contract ⟨404, [], none⟩).2.2 (by decide) (by decide) (by decide)⟩

/-- Claim C8: delete_netsuite_record returns true exactly on status 204
and false on every other status; the function is total, so no exception
escapes. -/
theorem claim8_delete_true_iff_204 :
    ∀ resp : HttpResponse, delete_netsuite_record resp = true ↔ resp.status = 204 := by
  intro resp
  by_cases h : resp.status = 204 <;> simp [delete_netsuite_record, h]

/-- Claim C9: the pagination loops need not terminate.  If every response
has status 200 with hasMore true and no items (record-list variant), or
status 200 with hasMore true and the limit is zero (dataset variant), the
loop never returns: for every bound on the number of iterations, the run
is still going (none) when the bound is exhausted. -/
theorem claim9_nontermination :
    (∀ (t : Nat → Response Nat),
      (∀ k, (t k).status = 200 ∧ (t k).hasMore = some true ∧ (t k).items = []) →
      ∀ fuel, fetch_all_netsuite_records t fuel = none)
  ∧ (∀ (t : Nat → Response Nat),
      (∀ k, (t k).status = 200 ∧ (t k).hasMore = some true) →
      ∀ fuel, fetch_all_dataset_records t 0 fuel = none) := by
  constructor
  · intro t h fuel
    simp only [fetch_all_netsuite_records]
    rw [fetchRecordsGo_eq_pagedGo]
    exact pagedGo_none _ _ t (fun k => ⟨(h k).1, (h k).2.1⟩) fuel 0 0 [] []
  · intro t h fuel
    simp only [fetch_all_dataset_records]
    rw [fetchDatasetGo_eq_pagedGo]
    exact pagedGo_none _ _ t (fun k => ⟨(h k).1, (h k).2⟩) fuel 0 0 [] []

theorem claim9_witness :
    fetch_all_netsuite_records tSpin 37 = none
  ∧ fetch_all_dataset_records tSpin 0 23 = none :=
  ⟨claim9_nontermination.1 tSpin (fun _ => ⟨rfl, rfl, rfl⟩) 37,
   claim9_nontermination.2 tSpin (fun _ => ⟨rfl, rfl⟩) 23⟩

/-- Claim C10: for the record-list and dataset fetchers, a successful page
with no hasMore field ends the loop right after its items (of whatever
count) are appended: the run returns the pages up to and including that
one after exactly k + 1 requests.  Moreover a run cannot tell a missing
hasMore from an explicit false: replacing the field by the Python default
(data.get with default False) never changes the result. -/
theorem claim10_missing_hasMore_ends_loop :
    (∀ (t : Nat → Response Nat) (fuel k : Nat),
      (∀ i, i < k → (t i).status = 200 ∧ (t i).hasMore = some true) →
      (t k).status = 200 → (t k).hasMore = none → k < fuel →
      ∃ offs, fetch_all_netsuite_records t fuel = some (itemsSeg t 0 (k + 1), offs)
        ∧ offs.length = k + 1)
  ∧ (∀ (t : Nat → Response Nat) (limit fuel k : Nat),
      (∀ i, i < k → (t i).status = 200 ∧ (t i).hasMore = some true) →
      (t k).status = 200 → (t k).hasMore = none → k < fuel →
      ∃ offs, fetch_all_dataset_records t limit fuel = some (itemsSeg t 0 (k + 1), offs)
        ∧ offs.length = k + 1)
  ∧ (∀ (t : Nat → Response Nat) (fuel : Nat),
      fetch_all_netsuite_records t fuel
        = fetch_all_netsuite_records (withDefaultHasMore t) fuel)
  ∧ (∀ (t : Nat → Response Nat) (limit fuel : Nat),
      fetch_all_dataset_records t limit fuel
        = fetch_all_dataset_records (withDefaultHasMore t) limit fuel) := by
  have hdef : ∀ (t : Nat → Response Nat) k,
      ((t k).hasMore = some true ↔ (withDefaultHasMore t k).hasMore = some true) := by
    intro t k
    cases hh : (t k).hasMore with
    | none => simp [withDefaultHasMore, hh]
    | some b => simp [withDefaultHasMore, hh]
  refine ⟨?_, ?_, ?_, ?_⟩
  · intro t fuel k hok hstat hnone hlt
    simp only [fetch_all_netsuite_records]
    rw [fetchRecordsGo_eq_pagedGo]
    refine pagedGo_runStop _ _ t k fuel 0 0 (by simpa using hok) (by simpa using hstat)
      ?_ hlt
    simp only [Nat.zero_add, hnone]
    simp
  · intro t limit fuel k hok hstat hnone hlt
    simp only [fetch_all_dataset_records]
    rw [fetchDatasetGo_eq_pagedGo]
    refine pagedGo_runStop _ _ t k fuel 0 0 (by simpa using hok) (by simpa using hstat)
      ?_ hlt
    simp only [Nat.zero_add, hnone]
    simp
  · intro t fuel
    simp only [fetch_all_netsuite_records]
    rw [fetchRecordsGo_eq_pagedGo, fetchRecordsGo_eq_pagedGo]
    exact pagedGo_congr _ _ t _ _ (withDefaultHasMore t)
      (fun k => ⟨rfl, rfl, hdef t k, fun o => rfl⟩) fuel 0 0 [] []
  · intro t limit fuel
    simp only [fetch_all_dataset_records]
    rw [fetchDatasetGo_eq_pagedGo, fetchDatasetGo_eq_pagedGo]
    exact pagedGo_congr _ _ t _ _ (withDefaultHasMore t)
      (fun k => ⟨rfl, rfl, hdef t k, fun o => rfl⟩) fuel 0 0 [] []

theorem claim10_witness :
    (∃ offs, fetch_all_netsuite_records tNoFlag 9 = some (itemsSeg tNoFlag 0 2, offs)
      ∧ offs.length = 2)
  ∧ (∃ offs, fetch_all_dataset_records tNoFlag 13 9 = some (itemsSeg tNoFlag 0 2, offs)
      ∧ offs.length = 2)
  ∧ fetch_all_netsuite_records tNoFlag 9
      = fetch_all_netsuite_records (withDefaultHasMore tNoFlag) 9 :=
  ⟨claim10_missing_hasMore_ends_loop.1 tNoFlag 9 1 (by decide) (by decide) (by decide)
      (by decide),
   claim10_missing_hasMore_ends_loop.2.1 tNoFlag 13 9 1 (by decide) (by decide) (by decide)
      (by decide),
   claim10_missing_hasMore_ends_loop.2.2.1 tNoFlag 9⟩

end Netsuite


